import Mathlib

/-!
# Verification of the cytools `Triangulation` core (`src/cytools/triangulation.py`)

This development gives a shallow embedding of the `Triangulation` class of
cytools and settles the frozen claims about it.  Python objects are modelled
as explicit records; numpy integer arrays become `List Int` / `List Nat`;
fallible code returns `Except`/`Option`; external collaborators (the convex
hull oracle `scipy.spatial.ConvexHull`, the polyhedral-cone oracle
`cytools.cone.Cone`, the TOPCOM/CGAL/QHull subprocesses, lattice reduction
`cytools.utils.lll_reduce` and the ambient-polytope oracle) are passed in as
explicit oracle functions, exactly as the spec designates them external
collaborators with narrow contracts.

Floating-point determinants `int(round(np.linalg.det(...)))` are modelled as
exact integer determinants (the spec itself speaks of "integer determinant of
the homogenized vertex matrix").
-/

/-- Remove the element at position `n` from a list (used to delete a column
when forming a minor of a matrix). -/
def dropIdx {α : Type} : Nat → List α → List α
  | _, [] => []
  | 0, _ :: xs => xs
  | n+1, x :: xs => x :: dropIdx n xs

/-- Integer determinant of a square matrix given as a list of rows, by Laplace
expansion along the first row; the `fuel` argument is the matrix size and only
serves to make the recursion structural. -/
def detFuel : Nat → List (List Int) → Int
  | 0, _ => 1
  | _ + 1, [] => 1
  | fuel + 1, r :: rs =>
    (List.range r.length).foldl
      (fun acc j =>
        acc + (if j % 2 = 0 then 1 else -1) * r.getD j 0 *
          detFuel fuel (rs.map (dropIdx j)))
      0

/-- Integer determinant of a square matrix given as a list of rows.  This is
the exact value of `np.linalg.det` rounded, as used by `Triangulation.is_valid`
and `Triangulation.gkz_phi`. -/
def detL (m : List (List Int)) : Int := detFuel m.length m

/-- Python: `cytools.utils.gcd_list`: gcd of the absolute values of a list of
integers. -/
def gcdList (v : List Int) : Nat := v.foldl (fun g x => Nat.gcd g x.natAbs) 0

/-- Python's `list.index` / the `_pts_dict` lookup: position of the first
occurrence of a point in the point list, `none` when absent (Python raises
`ValueError`/`KeyError` there). -/
def idxOf? (p : List Int) (l : List (List Int)) : Option Nat :=
  l.findIdx? (· == p)

/-- Python `<=` on integer lists (lexicographic), used by `sorted`. -/
def lexLeZ : List Int → List Int → Bool
  | [], _ => true
  | _ :: _, [] => false
  | a :: as, b :: bs => if a < b then true else if b < a then false else lexLeZ as bs

/-- Python `<=` on natural-number lists (lexicographic), used by `sorted`. -/
def lexLeN : List Nat → List Nat → Bool
  | [], _ => true
  | _ :: _, [] => false
  | a :: as, b :: bs => if a < b then true else if b < a then false else lexLeN as bs

/-- Insert an element into a list sorted by `le` (helper for `sortPy`). -/
def insSorted {α : Type} (le : α → α → Bool) (x : α) : List α → List α
  | [] => [x]
  | y :: ys => if le y x then y :: insSorted le x ys else x :: y :: ys

/-- Python `sorted` with respect to a total comparison `le`, implemented as a
structurally recursive insertion sort so that it evaluates inside the kernel. -/
def sortPy {α : Type} (le : α → α → Bool) : List α → List α
  | [] => []
  | x :: xs => insSorted le x (sortPy le xs)

/-- Python `sorted` on a list of point-index simplices: sort each simplex,
then sort the collection lexicographically (the canonical representation the
constructor establishes at the end of `__init__`). -/
def canonSimps (ss : List (List Nat)) : List (List Nat) :=
  sortPy lexLeN (ss.map (fun s => sortPy Nat.ble s))

/--
State of a `Triangulation` object, mirroring the attributes `__init__` stores:
`_poly` (kept as the opaque identity used by `Polytope.__eq__`), the
polytope's own dimension `poly.dim()`, `_pts` (rows, in the polytope's
canonical order), `_pts_optimal`, `_ambient_dim`, `_dim`, `_origin_index`
(`-1` when the lookup of the origin failed) and the canonically sorted
`_simplices`.
-/
structure Triangulation where
  polyId : Nat
  polyDim : Nat
  pts : List (List Int)
  ptsOptimal : List (List Int)
  ambientDim : Nat
  dim : Nat
  originIndex : Int
  simplices : List (List Nat)
  deriving Repr, DecidableEq

namespace Triangulation

/-- Python: `self._is_fulldim = (self._dim == self._ambient_dim)`. -/
def isFulldim (T : Triangulation) : Bool := T.dim == T.ambientDim

/-- Python: `Triangulation.is_fine`: every configuration point appears in some
simplex. -/
def isFine (T : Triangulation) : Bool :=
  (List.range T.pts.length).all (fun i => T.simplices.any (fun s => i ∈ s))

/--
`Triangulation.is_star(star_origin)`.  With an explicit origin, test that
every simplex contains it.  With none, look up the zero vector of length
`self.dim()` through `points_to_indices` (which consults `_pts_dict`, whose
keys are the ambient-dimension point tuples); a failed lookup is caught by
the bare `except` and yields `False`.
-/
def isStar (T : Triangulation) (starOrigin : Option Nat) : Bool :=
  match starOrigin with
  | some o => T.simplices.all (fun s => s.contains o)
  | none =>
    match idxOf? (List.replicate T.dim 0) T.pts with
    | some o => T.simplices.all (fun s => s.contains o)
    | none => false

/-- The homogenized optimal coordinates `[list(pt)+[1] for pt in self._pts_optimal]`. -/
def ptsExt (T : Triangulation) : List (List Int) :=
  T.ptsOptimal.map (fun pt => pt ++ [1])

/-- Normalized volume of one simplex: absolute integer determinant of the
homogenized vertex matrix, as computed in `is_valid` and `gkz_phi`.  Indexing
is total (`getD`); the constructor guarantees all indices are in range. -/
def simpVol (T : Triangulation) (s : List Nat) : Int :=
  (detL (s.map (fun i => T.ptsExt.getD i []))).natAbs

end Triangulation

/-!
## CPython's `hash` on integers and tuples

`Triangulation.__hash__` feeds a tuple of integer tuples to Python's built-in
`hash`.  The following is CPython's deterministic (PYTHONHASHSEED-independent)
hash for `int` (reduction modulo the Mersenne prime `2^61 - 1`, sign
preserved, `-1` mapped to `-2`) and for `tuple` (the xxHash-style combiner of
`tuplehash` in `Objects/tupleobject.c`, 64-bit arithmetic).
-/

/-- The constant `2^64`, the tuple-hash word modulus. -/
def pyM64 : Nat := 18446744073709551616

/-- CPython `_PyHASH_XXPRIME_1`. -/
def pyXXP1 : Nat := 11400714785074694791

/-- CPython `_PyHASH_XXPRIME_2`. -/
def pyXXP2 : Nat := 14029467366897019727

/-- CPython `_PyHASH_XXPRIME_5`. -/
def pyXXP5 : Nat := 2870177450012600261

/-- Rotate a 64-bit word left by 31 (`x < 2^64`). -/
def pyRotl31 (x : Nat) : Nat := (x % 2^33) * 2^31 + x / 2^33

/-- CPython `hash` of an `int`. -/
def pyHashInt (n : Int) : Int :=
  let m : Int := (n.natAbs % (2^61 - 1) : Nat)
  let h := if n < 0 then -m else m
  if h = -1 then -2 else h

/-- A hash value as an unsigned 64-bit lane (two's complement). -/
def pyU64 (n : Int) : Nat := (n % (pyM64 : Int)).toNat

/-- Reinterpret an unsigned 64-bit word as a signed hash value. -/
def pyToSigned64 (n : Nat) : Int := if n < 2^63 then (n : Int) else (n : Int) - (pyM64 : Int)

/-- CPython `tuplehash` on a list of already-hashed lanes (unsigned result). -/
def pyTupleHashU (lanes : List Nat) : Nat :=
  let acc := lanes.foldl
    (fun acc lane => (pyRotl31 ((acc + lane * pyXXP2) % pyM64) * pyXXP1) % pyM64) pyXXP5
  let acc := (acc + Nat.xor lanes.length (Nat.xor pyXXP5 3527539)) % pyM64
  if acc = pyM64 - 1 then 1546275796 else acc

/-- CPython `hash` of a tuple of integers. -/
def pyHashIntTuple (xs : List Int) : Int :=
  pyToSigned64 (pyTupleHashU (xs.map (fun n => pyU64 (pyHashInt n))))

/-- CPython `hash` of a tuple of integer tuples. -/
def pyHashTupleOfTuples (xss : List (List Int)) : Int :=
  pyToSigned64 (pyTupleHashU (xss.map (fun xs => pyU64 (pyHashIntTuple xs))))

namespace Triangulation

/--
`Triangulation.__eq__`: the ambient polytopes must compare equal
(`Polytope.__eq__`, here the opaque polytope identity) and the outer-sorted
simplex lists must coincide.  The point configurations are *not* compared.
-/
def eqPy (t1 t2 : Triangulation) : Bool :=
  t1.polyId == t2.polyId &&
    sortPy lexLeN t1.simplices == sortPy lexLeN t2.simplices

/-- Python: `Triangulation.__ne__`: the negation of `__eq__`. -/
def nePy (t1 t2 : Triangulation) : Bool := !(eqPy t1 t2)

/--
`Triangulation.__hash__`:
`hash((hash(tuple(sorted(points))),) + tuple(sorted(sorted(s) for s in simplices)))`,
computed with CPython's integer/tuple hash.  Unlike `__eq__`, the hash *does*
incorporate the point coordinates.
-/
def hashPy (t : Triangulation) : Int :=
  let ptHash := pyHashTupleOfTuples (sortPy lexLeZ t.pts)
  pyToSigned64 (pyTupleHashU
    (pyU64 (pyHashInt ptHash) ::
      (canonSimps t.simplices).map (fun s => pyU64 (pyHashIntTuple (s.map Int.ofNat)))))

end Triangulation

/--
Trivial one-simplex triangulation of the triangle `(0,0),(1,0),(0,1)` inside
the unit square polytope (polytope identity `0`, lattice points
`(0,0),(1,0),(0,1),(1,1)`), built over the point-label subset that selects the
first three points.  `is_valid` accepts it (single simplex).
-/
def eqHashT1 : Triangulation :=
  { polyId := 0, polyDim := 2
    pts := [[0,0],[1,0],[0,1]], ptsOptimal := [[0,0],[1,0],[0,1]]
    ambientDim := 2, dim := 2, originIndex := 0
    simplices := [[0,1,2]] }

/--
Trivial one-simplex triangulation of the triangle `(1,0),(0,1),(1,1)` inside
the same unit square polytope, over the complementary three-point label
subset.  Its local simplex list is also `[[0,1,2]]`.
-/
def eqHashT2 : Triangulation :=
  { polyId := 0, polyDim := 2
    pts := [[1,0],[0,1],[1,1]], ptsOptimal := [[1,0],[0,1],[1,1]]
    ambientDim := 2, dim := 2, originIndex := -1
    simplices := [[0,1,2]] }

/--
C3: `==` compares only the ambient polytope and the simplex index lists, while
`hash` also incorporates the point coordinates.  The two one-simplex
triangulations of different point subsets of the same square polytope compare
equal under `__eq__` yet have different CPython hash values, so `hash` is not
consistent with `==` as the claim asserts.
-/
theorem eq_true_but_hash_differs :
    Triangulation.eqPy eqHashT1 eqHashT2 = true ∧
      Triangulation.hashPy eqHashT1 ≠ Triangulation.hashPy eqHashT2 := by
  constructor
  · decide
  · decide

/-!
## External collaborators

The spec (§1, §6) designates the convex-hull computation, the polyhedral-cone
solver, lattice reduction, the ambient polytope and the three triangulation
back-ends as external oracles with narrow contracts.  They are bundled in one
record of function parameters; every theorem quantifies over them (or
instantiates them concretely in witnesses).
-/

/-- The Python exceptions the modelled code can raise. -/
inductive PyErr where
  | valueError : String → PyErr
  | attributeError : PyErr
  | indexError : PyErr
  | assertionError : PyErr
  | typeError : PyErr
  deriving Repr, DecidableEq

/-- The external collaborators consumed by `Triangulation`. -/
structure Oracles where
  /-- Python: `Cone(hyperplanes=...).is_solid()`: solidity test of a cone given by its
  hyperplane normals. -/
  isSolid : List (List Int) → Bool
  /-- Python: `Cone(A).intersection(Cone(B)).is_solid()`: whether the cones generated
  by the two generator sets intersect in a solid cone.  The fallback of
  `is_valid` intends to consume this, but its loop crashes before any cone is
  built (see `fallbackValidE`), so no modelled code path reaches it. -/
  solidInter : List (List Int) → List (List Int) → Bool
  /-- Python: `scipy.spatial.ConvexHull(pts).volume` (a real number, kept exact). -/
  hullVol : List (List Int) → ℚ
  /-- Simplices of `Triangulation(self.polytope(), self._pt_labels,
  heights=self.heights(), make_star=False)` in `is_valid`'s regular branch
  (depends on the cone interior point and a back-end run). -/
  rebuildSimps : Triangulation → List (List Nat)
  /-- Parsed output of the `topcom-points2flips` subprocess. -/
  topcomFlips : Triangulation → List (List (List Nat))
  /-- Python: `np.random.shuffle` at the given step of a random walk. -/
  shuffle : Nat → List Triangulation → List Triangulation
  /-- Python: `cytools.utils.lll_reduce`. -/
  lll : List (List Int) → List (List Int)
  /-- QHull heights `np.dot(p,p) + np.random.normal(0,0.05)`. -/
  qhullHeights : List (List Int) → List ℚ
  /-- Python: `_qhull_triangulate(points, heights)`. -/
  qhullTri : List (List Int) → List ℚ → List (List Nat)
  /-- Python: `_cgal_triangulate(points, heights)`. -/
  cgalTri : List (List Int) → List ℚ → List (List Nat)
  /-- Python: `_topcom_triangulate(points)`. -/
  topcomTri : List (List Int) → List (List Nat)
  /-- Result of the CGAL star-making loop that lowers the origin height until
  no simplex misses index 0 (only reached when `make_star` is still true). -/
  cgalStarLoop : List (List Int) → List ℚ → List (List Nat)
  /-- Python: `_to_star(triang)`: star-ification via the polytope's facet boundary
  points (§4.4); consumes the ambient-polytope oracle, never exercised by the
  claims below. -/
  toStar : Triangulation → List (List Nat)

/-- Python `set(s)` of small ints, iterated in ascending order: deduplicate
and sort. -/
def setAsc (s : List Nat) : List Nat := sortPy Nat.ble s.dedup

/-- Position of a point index in a list of indices. -/
def idxOfN? (p : Nat) (l : List Nat) : Option Nat := l.findIdx? (· == p)

/--
An integer kernel vector of the `(dim+1) × (dim+2)` matrix whose columns are
`cols`, by Cramer cofactors: component `j` is `(-1)^j` times the determinant
of the matrix with column `j` deleted (`det Mᵀ = det M`, so the remaining
columns are fed to `detL` as rows).  When the matrix has full row rank this
spans the one-dimensional nullspace that `flint.fmpz_mat(m).nullspace()`
returns a basis vector of; after the sign/gcd normalization below the two
agree whenever the leading coefficient is nonzero (which holds for genuine
adjacent-simplex pairs, both simplices being nondegenerate).
-/
def nullVecCofactor (cols : List (List Int)) : List Int :=
  (List.range cols.length).map
    (fun j => (if j % 2 = 0 then 1 else -1) * detL (dropIdx j cols))

/-- Sign normalization (`if v[0] < 0: v *= -1`) followed by gcd reduction
(`g = gcd_list(v); if g != 1: v //= g`, with numpy's floor division). -/
def normalizeHyp (v : List Int) : List Int :=
  let v := if v.getD 0 0 < 0 then v.map (fun x => -x) else v
  let g : Int := (gcdList v : Int)
  if g ≠ 1 then v.map (fun x => Int.fdiv x g) else v

namespace Triangulation

/-- The `star_origin` used inside `secondary_cone`: present exactly when
`self.is_star()` holds (in which case the origin lookup succeeded). -/
def starOrigin? (T : Triangulation) : Option Nat :=
  if T.isStar none then idxOf? (List.replicate T.dim 0) T.pts else none

/--
The wall normal contributed by one pair of simplices in `secondary_cone`'s
native branch, or `none` when the pair does not share exactly `dim` (resp.
`dim - 1`, star case) vertices.  `s1`, `s2` are the (de-origined, in the star
case) simplices as ascending duplicate-free lists; the matrix columns are the
homogenized coordinates of the two non-shared vertices, then the shared
vertices, then (star case) the origin.  The dense kernel vector is scattered
back to a full-length vector over all configuration points.
-/
def hypForPair (T : Triangulation) (star? : Option Nat) (dloc : Nat)
    (s1 s2 : List Nat) : Option (List Int) :=
  let comm := s1.filter (fun i => s2.contains i)
  if comm.length = dloc then
    let diff := sortPy Nat.ble
      (s1.filter (fun i => !s2.contains i) ++ s2.filter (fun i => !s1.contains i))
    let col := fun (i : Nat) => T.ptsExt.getD i []
    let cols := diff.map col ++ comm.map col ++
      (match star? with | some o => [col o] | none => [])
    let v := normalizeHyp (nullVecCofactor cols)
    some ((List.range T.ptsExt.length).map (fun p =>
      match idxOfN? p diff with
      | some k => v.getD k 0
      | none =>
        match idxOfN? p comm with
        | some k => v.getD (k + 2) 0
        | none => if star? = some p then v.getD (v.length - 1) 0 else 0))
  else none

/-- The double loop `for i,s1 in enumerate(simps): for s2 in simps[i+1:]`. -/
def pairHyps (T : Triangulation) (star? : Option Nat) (dloc : Nat) :
    List (List Nat) → List (List Int)
  | [] => []
  | s :: rest => rest.filterMap (T.hypForPair star? dloc s) ++ T.pairHyps star? dloc rest

/--
`Triangulation.secondary_cone`'s native computation (the algorithm of
Berglund--Katz--Klemm): hyperplane normals of the secondary cone, one per
pair of simplices sharing an internal facet, deduplicated (the Python code
accumulates them in a `set`).  The `include_points_not_in_triangulation`
flag never enters this computation; it only selects the back-end and the
cache slot.
-/
def secondaryConeHyps (T : Triangulation) : List (List Int) :=
  let star? := T.starOrigin?
  let simps := match star? with
    | some o => T.simplices.map (fun s => setAsc (s.filter (fun i => i != o)))
    | none => T.simplices.map setAsc
  let dloc := match star? with | some _ => T.dim - 1 | none => T.dim
  (T.pairHyps star? dloc simps).dedup

/--
`Triangulation.is_regular`: a one-simplex triangulation is regular outright;
otherwise test solidity of the secondary cone computed with
`include_points_not_in_triangulation=False`, which always takes the native
branch above.
-/
def isRegular (O : Oracles) (T : Triangulation) : Bool :=
  if T.simplices.length == 1 then true
  else O.isSolid T.secondaryConeHyps

/-- Python: `int(round(ConvexHull(pts).volume * math.factorial(self._dim)))`.
Rounding is to the nearest integer as `⌊q + 1/2⌋`; Python's `round` breaks
exact ties to the even side, but the quantities rounded here are convex-hull
volumes scaled to integers, never exact half-integers. -/
def polyVolScaled (O : Oracles) (T : Triangulation) : Int :=
  let q := O.hullVol T.ptsOptimal
  let n := q.num * (Nat.factorial T.dim : Int)
  Int.fdiv (2 * n + (q.den : Int)) (2 * (q.den : Int))

/--
The definitional fallback of `is_valid`.  The Python code returns `False` at
the first zero simplex volume and when the volume total differs from the
scaled convex-hull volume.  Its final pairwise check, however, evaluates
`Cone(pts_ext[s1])` where `pts_ext` is a plain Python list and `s1` is a row
of the numpy array `self.simplices()`: indexing a list with a multi-element
numpy array raises an uncaught `TypeError` on the first loop iteration, so
whenever at least two simplices survive the volume checks the fallback
crashes instead of answering, and it can never return `True` there.  (With an
empty simplex list the pair loop has no iterations.)
-/
def fallbackValidE (O : Oracles) (T : Triangulation) : Except PyErr Bool :=
  if T.simplices.any (fun s => T.simpVol s == 0) then .ok false
  else if (T.simplices.map T.simpVol).sum != T.polyVolScaled O then .ok false
  else if 2 ≤ T.simplices.length then .error .typeError
  else .ok true

/--
`Triangulation.is_valid`: trivially true for one simplex; for a presumably
regular triangulation, rebuild from the heights and compare simplex sets;
otherwise the geometric fallback, which either answers `False` or raises
`TypeError`.
-/
def isValidE (O : Oracles) (T : Triangulation) : Except PyErr Bool :=
  if T.simplices.length == 1 then .ok true
  else if isRegular O T then
    .ok (canonSimps T.simplices == canonSimps (O.rebuildSimps T))
  else fallbackValidE O T

end Triangulation

/-- A trivial instantiation of every external oracle: the cone solver reports
nothing solid, the convex hull has unit volume, the back-ends return empty
results and the shuffle is the identity. -/
def oracleTrivial : Oracles :=
  { isSolid := fun _ => false
    solidInter := fun _ _ => false
    hullVol := fun _ => 1
    rebuildSimps := fun _ => []
    topcomFlips := fun _ => []
    shuffle := fun _ l => l
    lll := fun m => m
    qhullHeights := fun _ => []
    qhullTri := fun _ _ => []
    cgalTri := fun _ _ => []
    topcomTri := fun _ => []
    cgalStarLoop := fun _ _ => []
    toStar := fun T => T.simplices }

/-- The unit square triangulated into two unimodular triangles. -/
def squareT : Triangulation :=
  { polyId := 0, polyDim := 2
    pts := [[0,0],[1,0],[0,1],[1,1]], ptsOptimal := [[0,0],[1,0],[0,1],[1,1]]
    ambientDim := 2, dim := 2, originIndex := 0
    simplices := [[0,1,2],[1,2,3]] }

/-- Oracles for the pinwheel example: the convex hull (the triangle with
vertices (0,0), (4,0), (0,4)) has volume 8, and the cone solver honestly
reports the secondary cone of this non-regular triangulation as not solid. -/
def oraclePinwheel : Oracles :=
  { oracleTrivial with hullVol := fun _ => 8 }

/-- The mother of all examples: the pinwheel triangulation of the triangle
(0,0), (4,0), (0,4) with interior points (1,1), (2,1), (1,2).  It is a valid
(volume-exhaustive, pairwise compatible) triangulation that is not regular,
so `is_valid` must decide it through the geometric fallback. -/
def pinwheelT : Triangulation :=
  { polyId := 5, polyDim := 2
    pts := [[0,0],[4,0],[0,4],[1,1],[2,1],[1,2]]
    ptsOptimal := [[0,0],[4,0],[0,4],[1,1],[2,1],[1,2]]
    ambientDim := 2, dim := 2, originIndex := 0
    simplices := [[0,1,3],[0,2,5],[0,3,5],[1,2,4],[1,3,4],[2,4,5],[3,4,5]] }

/--
C1: for a non-regular triangulation with at least two simplices, `is_valid`
is claimed to return `True` exactly when all simplex volumes are nonzero,
they sum to the scaled hull volume, and no two simplices overlap in a solid
cone.  The code cannot do this: after both volume checks pass (as they do on
the pinwheel, a genuinely valid non-regular triangulation: volumes
4+4+1+4+1+1+1 = 16 = 2! times the hull volume 8), the pair loop evaluates
`Cone(pts_ext[s1])` where `pts_ext` is a Python list and `s1` a numpy array
row, raising an uncaught `TypeError` on the first pair; the solid-overlap
check (c) is never performed and the fallback never returns `True`.
-/
theorem isValid_fallback_typeError :
    Triangulation.isRegular oraclePinwheel pinwheelT = false ∧
      (∀ s ∈ pinwheelT.simplices, pinwheelT.simpVol s ≠ 0) ∧
      (pinwheelT.simplices.map pinwheelT.simpVol).sum
        = pinwheelT.polyVolScaled oraclePinwheel ∧
      Triangulation.isValidE oraclePinwheel pinwheelT = .error .typeError :=
  ⟨by decide, by decide, by decide, rfl⟩

namespace Triangulation

/--
`Triangulation.gkz_phi` as a function on point indices: starting from the
zero vector, every simplex adds its normalized volume at each of its vertex
indices (`for i in s: phi[i] += simp_vol`).  The numpy array is modelled as a
function updated in place; `gkzPhi` materializes it over all point indices.
-/
def gkzFun (T : Triangulation) : Nat → Int :=
  T.simplices.foldl
    (fun f s =>
      let v := T.simpVol s
      s.foldl (fun g i => Function.update g i (g i + v)) f)
    (fun _ => 0)

/-- Python: `Triangulation.gkz_phi`: the GKZ phi vector, one entry per configuration
point. -/
def gkzPhi (T : Triangulation) : List Int :=
  (List.range T.pts.length).map T.gkzFun

end Triangulation

/-- Scattering one simplex adds its volume exactly at its (duplicate-free)
vertex indices. -/
theorem scatter_fold (v : Int) (s : List Nat) (hnd : s.Nodup) (f : Nat → Int)
    (j : Nat) :
    (s.foldl (fun g i => Function.update g i (g i + v)) f) j
      = f j + (if j ∈ s then v else 0) := by
  induction s generalizing f with
  | nil => simp
  | cons a s ih =>
    obtain ⟨ha, hnd'⟩ := List.nodup_cons.mp hnd
    rw [List.foldl_cons, ih hnd']
    by_cases hj : j = a
    · subst hj
      rw [Function.update_same]
      simp [ha]
    · rw [Function.update_noteq hj]
      simp [hj, List.mem_cons]

/-- Characterization of the double scatter loop of `gkz_phi`. -/
theorem gkzFun_eq_aux (T : Triangulation) (L : List (List Nat))
    (hnd : ∀ s ∈ L, s.Nodup) (f : Nat → Int) (j : Nat) :
    (L.foldl (fun f s =>
        let v := T.simpVol s
        s.foldl (fun g i => Function.update g i (g i + v)) f) f) j
      = f j + (L.map (fun s => if j ∈ s then T.simpVol s else 0)).sum := by
  induction L generalizing f with
  | nil => simp
  | cons s L ih =>
    rw [List.foldl_cons, ih (fun t ht => hnd t (List.mem_cons_of_mem _ ht))]
    rw [scatter_fold _ _ (hnd s (List.mem_cons_self _ _))]
    simp [add_assoc]

/-- Each entry of the scattered GKZ vector is the sum, over the simplices
containing that point, of their volumes. -/
theorem gkzFun_eq (T : Triangulation) (hnd : ∀ s ∈ T.simplices, s.Nodup)
    (j : Nat) :
    T.gkzFun j = (T.simplices.map (fun s => if j ∈ s then T.simpVol s else 0)).sum := by
  rw [Triangulation.gkzFun, gkzFun_eq_aux T _ hnd]
  simp

/-- Sums over a filtered list versus sums of guarded terms. -/
theorem sum_filter_ite {α : Type} (L : List α) (p : α → Bool) (f : α → Int) :
    ((L.filter p).map f).sum = (L.map (fun a => if p a then f a else 0)).sum := by
  induction L with
  | nil => simp
  | cons a L ih =>
    by_cases h : p a <;> simp [List.filter_cons, h, ih]

/-- Pointwise addition under a list sum. -/
theorem list_sum_map_add {α : Type} (l : List α) (f g : α → Int) :
    (l.map (fun x => f x + g x)).sum = (l.map f).sum + (l.map g).sum := by
  induction l with
  | nil => simp
  | cons a l ih => simp [ih]; omega

/-- Summing an indicator of a single element over a duplicate-free list. -/
theorem sum_ite_single (a : Nat) (v : Int) (l : List Nat) (hnd : l.Nodup)
    (ha : a ∈ l) :
    (l.map (fun i => if i = a then v else 0)).sum = v := by
  induction l with
  | nil => cases ha
  | cons b l ih =>
    obtain ⟨hb, hnd'⟩ := List.nodup_cons.mp hnd
    rcases List.mem_cons.mp ha with h | h
    · subst h
      have : ∀ i ∈ l, (if i = a then v else 0) = 0 := by
        intro i hi
        have : i ≠ a := fun he => hb (he ▸ hi)
        simp [this]
      simp [List.map_congr_left this]
    · have hba : b ≠ a := fun he => hb (he ▸ h)
      simp [hba, ih hnd' h]

/-- Summing a membership indicator over `range n` counts the (duplicate-free,
in-range) member list once each. -/
theorem sum_ite_mem (s : List Nat) (v : Int) (n : Nat) (hnd : s.Nodup)
    (hb : ∀ i ∈ s, i < n) :
    ((List.range n).map (fun i => if i ∈ s then v else 0)).sum
      = (s.length : Int) * v := by
  induction s with
  | nil => simp
  | cons a s ih =>
    obtain ⟨ha, hnd'⟩ := List.nodup_cons.mp hnd
    have hsplit : ∀ i : Nat, (if i ∈ a :: s then v else 0)
        = (if i = a then v else 0) + (if i ∈ s then v else 0) := by
      intro i
      by_cases h1 : i = a
      · subst h1
        simp [ha]
      · by_cases h2 : i ∈ s <;> simp [h1, h2, List.mem_cons]
    simp only [hsplit]
    rw [list_sum_map_add, sum_ite_single a v _ (List.nodup_range n)
        (List.mem_range.mpr (hb a (List.mem_cons_self _ _))),
      ih hnd' (fun i hi => hb i (List.mem_cons_of_mem _ hi))]
    simp only [List.length_cons]
    push_cast
    ring

/-- Exchanging a sum over point indices with a sum over simplices. -/
theorem sum_swap_list (n : Nat) (L : List (List Nat)) (F : List Nat → Nat → Int) :
    ((List.range n).map (fun i => (L.map (fun s => F s i)).sum)).sum
      = (L.map (fun s => ((List.range n).map (F s)).sum)).sum := by
  induction L with
  | nil => simp
  | cons s L ih =>
    simp only [List.map_cons, List.sum_cons]
    rw [← ih, ← list_sum_map_add]

/-- Python: `getD` of a map over `range`. -/
theorem getD_map_range (n i : Nat) (g : Nat → Int) (h : i < n) :
    ((List.range n).map g).getD i 0 = g i := by
  rw [List.getD_eq_getElem?_getD, List.getElem?_map, List.getElem?_range h]
  rfl

/-- Pulling a constant factor out of a list sum. -/
theorem list_sum_map_mul_left (c : Int) (l : List (List Nat)) (f : List Nat → Int) :
    (l.map (fun x => c * f x)).sum = c * (l.map f).sum := by
  induction l with
  | nil => simp
  | cons a l ih => simp [ih, mul_add]

/--
C4: the `i`-th component of `gkz_phi()` is the sum of the (unsigned, integer)
normalized volumes of the simplices having point `i` as a vertex, and the
components sum to `(dim + 1)` times the total simplex volume.  Hypotheses are
the constructor invariants: simplices are duplicate-free index lists of
length `dim + 1` with all indices in range.
-/
theorem gkzPhi_spec (T : Triangulation)
    (hnd : ∀ s ∈ T.simplices, s.Nodup)
    (hlen : ∀ s ∈ T.simplices, s.length = T.dim + 1)
    (hb : ∀ s ∈ T.simplices, ∀ i ∈ s, i < T.pts.length) :
    (∀ i < T.pts.length, T.gkzPhi.getD i 0
        = ((T.simplices.filter (fun s => s.contains i)).map T.simpVol).sum) ∧
      T.gkzPhi.sum = ((T.dim : Int) + 1) * (T.simplices.map T.simpVol).sum := by
  constructor
  · intro i hi
    rw [Triangulation.gkzPhi, getD_map_range _ _ _ hi, gkzFun_eq T hnd,
      sum_filter_ite]
    congr 1
    apply List.map_congr_left
    intro s _
    simp [List.contains]
  · rw [Triangulation.gkzPhi]
    have h1 : ∀ i ∈ List.range T.pts.length, T.gkzFun i
        = (T.simplices.map (fun s => if i ∈ s then T.simpVol s else 0)).sum :=
      fun i _ => gkzFun_eq T hnd i
    rw [List.map_congr_left h1, sum_swap_list]
    have h2 : ∀ s ∈ T.simplices,
        ((List.range T.pts.length).map (fun i => if i ∈ s then T.simpVol s else 0)).sum
          = ((T.dim : Int) + 1) * T.simpVol s := by
      intro s hs
      rw [sum_ite_mem s _ _ (hnd s hs) (hb s hs), hlen s hs]
      push_cast
      ring
    rw [List.map_congr_left h2]
    have := list_sum_map_mul_left ((T.dim : Int) + 1) T.simplices T.simpVol
    exact this

/-- The 2-dimensional cross polytope, star-triangulated through the origin
into four unimodular triangles. -/
def crossT : Triangulation :=
  { polyId := 1, polyDim := 2
    pts := [[0,0],[1,0],[0,1],[-1,0],[0,-1]]
    ptsOptimal := [[0,0],[1,0],[0,1],[-1,0],[0,-1]]
    ambientDim := 2, dim := 2, originIndex := 0
    simplices := [[0,1,2],[0,1,4],[0,2,3],[0,3,4]] }

/-- Witness for C4 at the star-triangulated cross polytope: every GKZ entry
is the incident-volume sum (here `[4,2,2,2,2]`) and the entries sum to
`3 * 4`. -/
theorem gkzPhi_spec_witness :
    (∀ i < crossT.pts.length, crossT.gkzPhi.getD i 0
        = ((crossT.simplices.filter (fun s => s.contains i)).map crossT.simpVol).sum) ∧
      crossT.gkzPhi.sum
        = ((crossT.dim : Int) + 1) * (crossT.simplices.map crossT.simpVol).sum :=
  gkzPhi_spec crossT (by decide) (by decide) (by decide)

/--
A triangulation of the segment from `(0,0)` to `(1,0)`: a point configuration
that contains the origin but is not full-dimensional (`dim = 1` inside
`ZZ^2`).  The origin lookup key `(0,) * dim()` has length 1 while the
`_pts_dict` keys have length 2 (the constructor's own origin lookup with
`(0,) * poly.dim()` fails the same way, recording `_origin_index = -1`).
-/
def segT : Triangulation :=
  { polyId := 2, polyDim := 1
    pts := [[0,0],[1,0]], ptsOptimal := [[0],[1]]
    ambientDim := 2, dim := 1, originIndex := -1
    simplices := [[0,1]] }

/--
Counterexample to C6: in `segT` the zero vector is the configuration point of
index `0` and every simplex contains index `0`, yet `is_star()` returns
`False`, because the lookup key `(0,) * dim()` has the wrong length for a
non-full-dimensional configuration.
-/
theorem isStar_zero_vector_counterexample :
    idxOf? (List.replicate segT.ambientDim 0) segT.pts = some 0 ∧
      (∀ s ∈ segT.simplices, 0 ∈ s) ∧
      Triangulation.isStar segT none = false := by
  decide

/--
C6 (amended): `is_star(o)` with an explicit origin is `True` iff every simplex
contains `o`.  With no argument it is `True` iff the zero vector *of length
`dim()`* is a point of the configuration and every simplex contains its index
— for full-dimensional configurations this is the ambient origin, but for
non-full-dimensional ones the lookup always fails.  In particular, when the
configuration contains no origin point, `is_star()` returns `False`.
-/
theorem isStar_spec (T : Triangulation)
    (hwf : ∀ p ∈ T.pts, p.length = T.ambientDim) :
    (∀ o : Nat, (T.isStar (some o) = true ↔ ∀ s ∈ T.simplices, o ∈ s)) ∧
    (T.isStar none = true ↔ ∃ i, idxOf? (List.replicate T.dim 0) T.pts = some i ∧
        ∀ s ∈ T.simplices, i ∈ s) ∧
    (List.replicate T.ambientDim 0 ∉ T.pts → T.isStar none = false) := by
  refine ⟨?_, ?_, ?_⟩
  · intro o
    simp [Triangulation.isStar, List.all_eq_true, List.contains]
  · rw [Triangulation.isStar]
    cases h : idxOf? (List.replicate T.dim 0) T.pts with
    | none => simp [h]
    | some o => simp [h, List.all_eq_true, List.contains]
  · intro habs
    rw [Triangulation.isStar]
    have hnone : idxOf? (List.replicate T.dim 0) T.pts = none := by
      rw [idxOf?, List.findIdx?_eq_none_iff]
      intro p hp
      by_cases hdim : T.dim = T.ambientDim
      · rw [Bool.eq_false_iff]
        intro hbe
        exact habs (hdim ▸ (eq_of_beq hbe) ▸ hp)
      · rw [Bool.eq_false_iff]
        intro hbe
        have := eq_of_beq hbe
        have hlen := congrArg List.length this
        rw [List.length_replicate, hwf p hp] at hlen
        exact hdim hlen.symm
    rw [hnone]

/-- Witness for the amended C6 statement at the cross-polytope star
triangulation (full-dimensional, origin at index 0). -/
theorem isStar_spec_witness :
    (crossT.isStar (some 0) = true ↔ ∀ s ∈ crossT.simplices, 0 ∈ s) ∧
    (crossT.isStar none = true ↔ ∃ i, idxOf? (List.replicate crossT.dim 0) crossT.pts = some i ∧
        ∀ s ∈ crossT.simplices, i ∈ s) ∧
    (List.replicate crossT.ambientDim 0 ∉ crossT.pts → crossT.isStar none = false) :=
  ⟨(isStar_spec crossT (by decide)).1 0, (isStar_spec crossT (by decide)).2.1,
    (isStar_spec crossT (by decide)).2.2⟩

namespace Triangulation

/-- Python: `points = set(range(len(self._pts))) - {self._origin_index}` as an
ascending list (Python iterates small-int sets in ascending order; all the
properties proved below are independent of this order). -/
def srPoints (T : Triangulation) : List Nat :=
  (List.range T.pts.length).filter (fun i => (i : Int) != T.originIndex)

/-- Python: `[[i for i in s if i != self._origin_index] for s in self.simplices()]`. -/
def srSimplices (T : Triangulation) : List (List Nat) :=
  T.simplices.map (fun s => s.filter (fun i => (i : Int) != T.originIndex))

/-- Python: `simplex_tuples` entry for size `d`: the `frozenset`s of all length-`d`
combinations of the de-origined simplices (`itertools.combinations(s, d)`
accumulated into a set, modelled as a deduplicated list). -/
def simplexTuples (T : Triangulation) (d : Nat) : List (Finset Nat) :=
  (T.srSimplices.foldl (fun acc s => acc ++ (s.sublistsLen d).map List.toFinset) []).dedup

end Triangulation

/-- The mutable pair `(SR_ideal, checked)` of `sr_ideal`. -/
structure SRState where
  SR : Finset (Finset Nat)
  checked : Finset (Finset Nat)

namespace Triangulation

/--
The body of `sr_ideal`'s innermost loop for size index `i`, candidate face
`tup` (of size `i+1`) and extra point `j`: form `k = tup ∪ {j}`; skip if
already checked or not one element larger; mark checked; keep only if `k` is
not a face of size `i+2` and no smaller recorded generator of the form
`t ∪ {j}` with `t ⊆ tup`, `1 ≤ |t| ≤ i`, lies inside it.
-/
def srStep (T : Triangulation) (i : Nat) (st : SRState) (tup : Finset Nat)
    (j : Nat) : SRState :=
  let k := insert j tup
  if k ∈ st.checked ∨ k.card ≠ tup.card + 1 then st
  else
    let st' : SRState := ⟨st.SR, insert k st.checked⟩
    if k ∈ T.simplexTuples (i + 2) then st'
    else if ∃ t ∈ tup.powerset, 1 ≤ t.card ∧ t.card ≤ i ∧ insert j t ∈ st.SR then st'
    else ⟨insert k st'.SR, st'.checked⟩

/-- Python: `for j in points: ...` -/
def srInnerFold (T : Triangulation) (i : Nat) (tup : Finset Nat)
    (st : SRState) : SRState :=
  T.srPoints.foldl (fun st j => T.srStep i st tup j) st

/-- Python: `for tup in simplex_tuples[i]: ...` -/
def srSizeFold (T : Triangulation) (i : Nat) (st : SRState) : SRState :=
  (T.simplexTuples (i + 1)).foldl (fun st tup => T.srInnerFold i tup st) st

/-- Python: `for i in range(len(simplex_tuples)-1): ...`, starting from empty
`SR_ideal` and `checked` sets. -/
def srLoop (T : Triangulation) : SRState :=
  (List.range (T.dim - 1)).foldl (fun st i => T.srSizeFold i st) ⟨∅, ∅⟩

/-- The set of generators `sr_ideal` returns (the Python code then lists them
as sorted tuples, sorted by size then lexicographically, which is a bijective
re-presentation of this set). -/
def srIdealSet (T : Triangulation) : Finset (Finset Nat) := T.srLoop.SR

/-- Python: `Triangulation.sr_ideal`: raises `NotImplementedError` unless the
triangulation is star and the configuration full-dimensional. -/
def srIdealE (T : Triangulation) : Except Unit (Finset (Finset Nat)) :=
  if !(T.isStar none) || !T.isFulldim then .error ()
  else .ok T.srIdealSet

end Triangulation

/-- Invariant preservation through a left fold. -/
theorem foldl_inv {σ α : Type} {P : σ → Prop} (f : σ → α → σ) (l : List α)
    (h : ∀ st a, a ∈ l → P st → P (f st a)) :
    ∀ st, P st → P (l.foldl f st) := by
  induction l with
  | nil => exact fun st hst => hst
  | cons a l ih =>
    intro st hst
    exact ih (fun st' a' ha' => h st' a' (List.mem_cons_of_mem _ ha'))
      _ (h st a (List.mem_cons_self _ _) hst)

/-- Membership in `srPoints`. -/
theorem mem_srPoints (T : Triangulation) (j : Nat) :
    j ∈ T.srPoints ↔ (j : Int) ≠ T.originIndex ∧ j < T.pts.length := by
  simp [Triangulation.srPoints, List.mem_filter, List.mem_range, bne_iff_ne,
    and_comm]

/-- Membership in the accumulated combination lists. -/
theorem mem_simplexTuples_aux (d : Nat) (L : List (List Nat)) (acc : List (Finset Nat))
    (k : Finset Nat) :
    k ∈ L.foldl (fun acc s => acc ++ (s.sublistsLen d).map List.toFinset) acc ↔
      k ∈ acc ∨ ∃ s ∈ L, k ∈ (s.sublistsLen d).map List.toFinset := by
  induction L generalizing acc with
  | nil => simp
  | cons s L ih =>
    rw [List.foldl_cons, ih]
    simp [List.mem_append, or_assoc]

/-- Characterization of `simplex_tuples`: for duplicate-free simplices, the
size-`d` bucket holds exactly the subsets of cardinality `d` of de-origined
simplices. -/
theorem mem_simplexTuples (T : Triangulation)
    (hnd : ∀ s ∈ T.simplices, s.Nodup) (d : Nat) (k : Finset Nat) :
    k ∈ T.simplexTuples d ↔
      ∃ s ∈ T.srSimplices, k ⊆ s.toFinset ∧ k.card = d := by
  have hnd' : ∀ s ∈ T.srSimplices, s.Nodup := by
    intro s hs
    obtain ⟨s1, hs1, rfl⟩ := List.mem_map.mp hs
    exact (hnd s1 hs1).filter _
  rw [Triangulation.simplexTuples, List.mem_dedup, mem_simplexTuples_aux]
  simp only [List.not_mem_nil, false_or, List.mem_map]
  constructor
  · rintro ⟨s, hs, l', hl', rfl⟩
    obtain ⟨hsub, hlen⟩ := List.mem_sublistsLen.mp hl'
    have hlnd : l'.Nodup := (hnd' s hs).sublist hsub
    refine ⟨s, hs, ?_, ?_⟩
    · intro x hx
      exact List.mem_toFinset.mpr (hsub.subset (List.mem_toFinset.mp hx))
    · rw [List.toFinset_card_of_nodup hlnd, hlen]
  · rintro ⟨s, hs, hsub, hcard⟩
    refine ⟨s, hs, s.filter (fun x => decide (x ∈ k)), ?_, ?_⟩
    · rw [List.mem_sublistsLen]
      have hfnd : (s.filter (fun x => decide (x ∈ k))).Nodup := (hnd' s hs).filter _
      have hft : (s.filter (fun x => decide (x ∈ k))).toFinset = k := by
        ext x
        simp only [List.mem_toFinset, List.mem_filter, decide_eq_true_eq]
        exact ⟨fun h => h.2, fun h => ⟨List.mem_toFinset.mp (hsub h), h⟩⟩
      refine ⟨List.filter_sublist _, ?_⟩
      rw [← List.toFinset_card_of_nodup hfnd, hft, hcard]
    · ext x
      simp only [List.mem_toFinset, List.mem_filter, decide_eq_true_eq]
      exact ⟨fun h => h.2, fun h => ⟨List.mem_toFinset.mp (hsub h), h⟩⟩

/-- The soundness properties every recorded generator keeps: at least two
elements, only non-origin in-range point indices, and not contained in any
de-origined simplex. -/
def SRGood (T : Triangulation) (k : Finset Nat) : Prop :=
  2 ≤ k.card ∧
    (∀ x ∈ k, (x : Int) ≠ T.originIndex ∧ x < T.pts.length) ∧
    ∀ s ∈ T.srSimplices, ¬k ⊆ s.toFinset

/-- Loop invariant of `sr_ideal`: every recorded generator is sound and no
larger than the current size bound, the recorded generators form an antichain
under inclusion, and everything recorded was marked checked. -/
def SRInv (T : Triangulation) (bound : Nat) (st : SRState) : Prop :=
  (∀ k ∈ st.SR, SRGood T k ∧ k.card ≤ bound) ∧
    (∀ k1 ∈ st.SR, ∀ k2 ∈ st.SR, k1 ⊆ k2 → k1 = k2) ∧
    ∀ k ∈ st.SR, k ∈ st.checked

/-- The size bound of the invariant is monotone. -/
theorem SRInv_mono (T : Triangulation) (b b' : Nat) (h : b ≤ b') (st : SRState) :
    SRInv T b st → SRInv T b' st := by
  rintro ⟨h1, h2, h3⟩
  exact ⟨fun k hk => ⟨(h1 k hk).1, le_trans (h1 k hk).2 h⟩, h2, h3⟩

/-- One inner-loop step of `sr_ideal` preserves the invariant (at bound
`i + 2`, the size of any generator recorded during size-iteration `i`). -/
theorem srStep_inv (T : Triangulation)
    (hnd : ∀ s ∈ T.simplices, s.Nodup)
    (hbd : ∀ s ∈ T.simplices, ∀ x ∈ s, x < T.pts.length)
    (i : Nat) (st : SRState) (tup : Finset Nat) (j : Nat)
    (htup : tup ∈ T.simplexTuples (i + 1)) (hj : j ∈ T.srPoints)
    (hinv : SRInv T (i + 2) st) : SRInv T (i + 2) (T.srStep i st tup j) := by
  obtain ⟨hgood, hanti, hsub⟩ := hinv
  rw [Triangulation.srStep]
  by_cases h1 : insert j tup ∈ st.checked ∨ (insert j tup).card ≠ tup.card + 1
  · rw [if_pos h1]
    exact ⟨hgood, hanti, hsub⟩
  rw [if_neg h1]
  push_neg at h1
  obtain ⟨hkch, hkcard⟩ := h1
  have hsub' : ∀ k' ∈ st.SR, k' ∈ insert (insert j tup) st.checked :=
    fun k' h => Finset.mem_insert_of_mem (hsub k' h)
  by_cases h2 : insert j tup ∈ T.simplexTuples (i + 2)
  · rw [if_pos h2]
    exact ⟨hgood, hanti, hsub'⟩
  rw [if_neg h2]
  by_cases h3 : ∃ t ∈ tup.powerset, 1 ≤ t.card ∧ t.card ≤ i ∧ insert j t ∈ st.SR
  · rw [if_pos h3]
    exact ⟨hgood, hanti, hsub'⟩
  rw [if_neg h3]
  push_neg at h3
  obtain ⟨s0, hs0, htsub, htcard⟩ := (mem_simplexTuples T hnd _ _).mp htup
  obtain ⟨hjo, hjlt⟩ := (mem_srPoints T j).mp hj
  have hkcard' : (insert j tup).card = i + 2 := by omega
  have hgoodk : SRGood T (insert j tup) := by
    refine ⟨by omega, ?_, ?_⟩
    · intro x hx
      rcases Finset.mem_insert.mp hx with h | h
      · exact h ▸ ⟨hjo, hjlt⟩
      · have hxs := htsub h
        obtain ⟨s1, hs1, rfl⟩ := List.mem_map.mp hs0
        have hxf := List.mem_filter.mp (List.mem_toFinset.mp hxs)
        exact ⟨by simpa [bne_iff_ne] using hxf.2, hbd s1 hs1 x hxf.1⟩
    · intro s hs hks
      exact h2 ((mem_simplexTuples T hnd _ _).mpr ⟨s, hs, hks, hkcard'⟩)
  refine ⟨?_, ?_, ?_⟩
  · intro k' hk'
    rcases Finset.mem_insert.mp hk' with rfl | h
    · exact ⟨hgoodk, by omega⟩
    · exact hgood k' h
  · intro k1 hk1 k2 hk2 hsub12
    rcases Finset.mem_insert.mp hk1 with rfl | h1' <;>
      rcases Finset.mem_insert.mp hk2 with rfl | h2'
    · rfl
    · have hc2 := (hgood k2 h2').2
      have hle := Finset.card_le_card hsub12
      exact Finset.eq_of_subset_of_card_le hsub12 (by omega)
    · exfalso
      by_cases hne : k1 = insert j tup
      · exact hkch (hsub _ (hne ▸ h1'))
      have hk1lt : k1.card < (insert j tup).card :=
        Finset.card_lt_card (Finset.ssubset_iff_subset_ne.mpr ⟨hsub12, hne⟩)
      have hg1 := (hgood k1 h1').1
      by_cases hjk : j ∈ k1
      · have hterase : k1.erase j ⊆ tup := by
          intro x hx
          obtain ⟨hxj, hx1⟩ := Finset.mem_erase.mp hx
          rcases Finset.mem_insert.mp (hsub12 hx1) with h | h
          · exact absurd h hxj
          · exact h
        have hcer : (k1.erase j).card = k1.card - 1 := Finset.card_erase_of_mem hjk
        have h2card := hg1.1
        have := h3 (k1.erase j) (Finset.mem_powerset.mpr hterase)
          (by omega) (by omega)
        rw [Finset.insert_erase hjk] at this
        exact this h1'
      · have hk1tup : k1 ⊆ tup := by
          intro x hx
          rcases Finset.mem_insert.mp (hsub12 hx) with h | h
          · exact absurd (h ▸ hx) hjk
          · exact h
        exact hg1.2.2 s0 hs0 (hk1tup.trans htsub)
    · exact hanti k1 h1' k2 h2' hsub12
  · intro k' hk'
    rcases Finset.mem_insert.mp hk' with rfl | h
    · exact Finset.mem_insert_self _ _
    · exact Finset.mem_insert_of_mem (hsub k' h)

/-- The inner point loop preserves the invariant. -/
theorem srInnerFold_inv (T : Triangulation)
    (hnd : ∀ s ∈ T.simplices, s.Nodup)
    (hbd : ∀ s ∈ T.simplices, ∀ x ∈ s, x < T.pts.length)
    (i : Nat) (tup : Finset Nat) (htup : tup ∈ T.simplexTuples (i + 1))
    (st : SRState) (hinv : SRInv T (i + 2) st) :
    SRInv T (i + 2) (T.srInnerFold i tup st) :=
  foldl_inv _ _ (fun st' j hj h => srStep_inv T hnd hbd i st' tup j htup hj h)
    st hinv

/-- The face loop of one size iteration preserves the invariant. -/
theorem srSizeFold_inv (T : Triangulation)
    (hnd : ∀ s ∈ T.simplices, s.Nodup)
    (hbd : ∀ s ∈ T.simplices, ∀ x ∈ s, x < T.pts.length)
    (i : Nat) (st : SRState) (hinv : SRInv T (i + 2) st) :
    SRInv T (i + 2) (T.srSizeFold i st) :=
  foldl_inv _ _ (fun st' tup htup h => srInnerFold_inv T hnd hbd i tup htup st' h)
    st hinv

/-- After the first `n` size iterations, the invariant holds at bound `n + 1`
(sizes processed so far produce generators of cardinality at most `n + 1`). -/
theorem srRange_inv (T : Triangulation)
    (hnd : ∀ s ∈ T.simplices, s.Nodup)
    (hbd : ∀ s ∈ T.simplices, ∀ x ∈ s, x < T.pts.length) :
    ∀ n : Nat, SRInv T (n + 1)
      ((List.range n).foldl (fun st i => T.srSizeFold i st) ⟨∅, ∅⟩) := by
  intro n
  induction n with
  | zero =>
    refine ⟨fun k hk => absurd hk (Finset.not_mem_empty k),
      fun k1 hk1 => absurd hk1 (Finset.not_mem_empty k1),
      fun k hk => absurd hk (Finset.not_mem_empty k)⟩
  | succ n ih =>
    rw [List.range_succ, List.foldl_append, List.foldl_cons, List.foldl_nil]
    exact srSizeFold_inv T hnd hbd n _ (SRInv_mono T (n + 1) (n + 2) (by omega) _ ih)

/--
C5: for a full-dimensional star triangulation (with the canonical invariants:
duplicate-free simplices with in-range indices), `sr_ideal()` succeeds and
every returned generator consists of non-origin in-range point indices, is
not a subset of any simplex, and no generator is a subset of another
(pairwise non-comparability under inclusion).
-/
theorem srIdeal_spec (T : Triangulation)
    (hnd : ∀ s ∈ T.simplices, s.Nodup)
    (hbd : ∀ s ∈ T.simplices, ∀ x ∈ s, x < T.pts.length)
    (hstar : T.isStar none = true) (hfd : T.isFulldim = true) :
    T.srIdealE = .ok T.srIdealSet ∧
      (∀ k ∈ T.srIdealSet, (∀ x ∈ k, (x : Int) ≠ T.originIndex ∧ x < T.pts.length) ∧
        ¬∃ s ∈ T.simplices, k ⊆ s.toFinset) ∧
      ∀ k1 ∈ T.srIdealSet, ∀ k2 ∈ T.srIdealSet, k1 ⊆ k2 → k1 = k2 := by
  have hinv := srRange_inv T hnd hbd (T.dim - 1)
  refine ⟨?_, ?_, hinv.2.1⟩
  · rw [Triangulation.srIdealE, hstar, hfd]
    rfl
  · intro k hk
    obtain ⟨⟨_, hpts, hnf⟩, _⟩ := hinv.1 k hk
    refine ⟨hpts, ?_⟩
    rintro ⟨s, hs, hks⟩
    apply hnf (s.filter (fun x => (x : Int) != T.originIndex))
      (List.mem_map_of_mem _ hs)
    intro x hx
    rw [List.mem_toFinset, List.mem_filter]
    refine ⟨List.mem_toFinset.mp (hks hx), ?_⟩
    simpa [bne_iff_ne] using (hpts x hx).1

/-- Witness for C5 at the star-triangulated cross polytope, whose
Stanley-Reisner ideal is generated by `{1,3}` and `{2,4}`. -/
theorem srIdeal_spec_witness :
    crossT.srIdealE = .ok crossT.srIdealSet ∧
      (∀ k ∈ crossT.srIdealSet,
        (∀ x ∈ k, (x : Int) ≠ crossT.originIndex ∧ x < crossT.pts.length) ∧
        ¬∃ s ∈ crossT.simplices, k ⊆ s.toFinset) ∧
      ∀ k1 ∈ crossT.srIdealSet, ∀ k2 ∈ crossT.srIdealSet, k1 ⊆ k2 → k1 = k2 :=
  srIdeal_spec crossT (by decide) (by decide) (by decide) (by decide)

namespace Triangulation

/-- Python: `Triangulation.get_toric_variety`: raises `NotImplementedError` for
non-full-dimensional configurations, then for non-star triangulations;
otherwise it hands the triangulation to the external `ToricVariety`
constructor (a pure consumer, represented by `()`). -/
def getToricVarietyE (T : Triangulation) : Except Unit Unit :=
  if !T.isFulldim then .error ()
  else if !(T.isStar none) then .error ()
  else .ok ()

/-- Python: `Triangulation.automorphism_orbit`: raises `NotImplementedError` for
non-full-dimensional configurations; past the guard the computation consumes
the polytope's automorphism-group oracle (§4.6), whose result is supplied
here as `orb`. -/
def automorphismOrbitE (T : Triangulation) (orb : List (List (List Nat))) :
    Except Unit (List (List (List Nat))) :=
  if !T.isFulldim then .error () else .ok orb

end Triangulation

/--
C9: `get_toric_variety` fails with `NotImplementedError` exactly on non-star
or non-full-dimensional triangulations, `sr_ideal` likewise, and
`automorphism_orbit` exactly on non-full-dimensional configurations; under
the complementary preconditions none of them raises.
-/
theorem notImplemented_guards_spec (T : Triangulation)
    (orb : List (List (List Nat))) :
    (T.getToricVarietyE = .error () ↔
      (T.isFulldim = false ∨ T.isStar none = false)) ∧
    (T.srIdealE = .error () ↔
      (T.isStar none = false ∨ T.isFulldim = false)) ∧
    (T.automorphismOrbitE orb = .error () ↔ T.isFulldim = false) := by
  cases hfd : T.isFulldim <;> cases hst : T.isStar none <;>
    simp [Triangulation.getToricVarietyE, Triangulation.srIdealE,
      Triangulation.automorphismOrbitE, hfd, hst]

namespace Triangulation

/--
`neighbor_triangulations(only_fine=False, only_regular=False,
only_star=False)` as called by `random_flips`: the one-simplex TOPCOM-bug
guard returns `[]` (with a warning); otherwise the TOPCOM flip oracle's
candidate simplex lists are parsed, candidates with a row of the wrong length
are dropped, and each survivor is rebuilt as a triangulation of the same
point configuration (`check_input_simplices=False`) with canonical simplices.
(The specialized 2D fast path requires `only_fine=True` and is never taken on
this call.)
-/
def neighborsAll (O : Oracles) (T : Triangulation) : List Triangulation :=
  if T.simplices.length == 1 then []
  else
    ((O.topcomFlips T).filter
        (fun t => t.all (fun s => s.length == T.dim + 1))).map
      (fun ss => { T with simplices := canonSimps ss })

/-- The acceptance test of one `random_flips` step: the candidate must pass
every active `only_fine` / `only_star` / `only_regular` filter. -/
def passesFilters (O : Oracles) (onlyFine onlyRegular onlyStar : Bool)
    (t : Triangulation) : Bool :=
  (!onlyFine || t.isFine) && (!onlyStar || t.isStar none) &&
    (!onlyRegular || isRegular O t)

/--
`Triangulation.random_flips(N, ...)`: `N` accept/reject steps; each step
shuffles the full unfiltered neighbor list (the shuffle oracle is indexed by
the step number, standing for the global numpy random state) and accepts the
first neighbor passing the filters; a step with no acceptable neighbor raises
`RuntimeError` (the Python `for ... else` branch).
-/
def randomFlips (O : Oracles) (onlyFine onlyRegular onlyStar : Bool) :
    Nat → Nat → Triangulation → Except Unit Triangulation
  | 0, _, cur => .ok cur
  | n + 1, step, cur =>
    match (O.shuffle step (neighborsAll O cur)).find?
        (passesFilters O onlyFine onlyRegular onlyStar) with
    | some t => randomFlips O onlyFine onlyRegular onlyStar n (step + 1) t
    | none => .error ()

end Triangulation

/-- Python: `find?` returns the first element satisfying the predicate. -/
theorem find?_first {α : Type} (p : α → Bool) (l1 : List α) (t : α) (l2 : List α)
    (h1 : ∀ x ∈ l1, p x = false) (ht : p t = true) :
    (l1 ++ t :: l2).find? p = some t := by
  induction l1 with
  | nil => simpa using List.find?_cons_of_pos l2 ht
  | cons a l ih =>
    rw [List.cons_append, List.find?_cons_of_neg]
    · exact ih (fun x hx => h1 x (List.mem_cons_of_mem _ hx))
    · simp [h1 a (List.mem_cons_self _ _)]

/--
C8: `random_flips` performs accept/reject steps on the shuffled full neighbor
list: zero remaining steps return the current triangulation; a step on which
every shuffled neighbor fails the active filters raises the runtime error
(the stuck state is not retried and no partial result is returned); and a
step whose shuffled neighbor list has a first filter-passing element `t`
(after a failing prefix) accepts exactly `t` and continues the walk from it.
-/
theorem randomFlips_spec (O : Oracles) (onlyFine onlyRegular onlyStar : Bool)
    (N step : Nat) (cur : Triangulation) :
    (Triangulation.randomFlips O onlyFine onlyRegular onlyStar 0 step cur = .ok cur) ∧
    ((∀ t ∈ O.shuffle step (Triangulation.neighborsAll O cur),
        Triangulation.passesFilters O onlyFine onlyRegular onlyStar t = false) →
      Triangulation.randomFlips O onlyFine onlyRegular onlyStar (N + 1) step cur
        = .error ()) ∧
    (∀ l1 t l2, O.shuffle step (Triangulation.neighborsAll O cur) = l1 ++ t :: l2 →
      (∀ x ∈ l1, Triangulation.passesFilters O onlyFine onlyRegular onlyStar x = false) →
      Triangulation.passesFilters O onlyFine onlyRegular onlyStar t = true →
      Triangulation.randomFlips O onlyFine onlyRegular onlyStar (N + 1) step cur
        = Triangulation.randomFlips O onlyFine onlyRegular onlyStar N (step + 1) t) := by
  refine ⟨rfl, ?_, ?_⟩
  · intro hall
    have hnone : (O.shuffle step (Triangulation.neighborsAll O cur)).find?
        (Triangulation.passesFilters O onlyFine onlyRegular onlyStar) = none := by
      rw [List.find?_eq_none]
      intro x hx
      simp [hall x hx]
    rw [Triangulation.randomFlips, hnone]
  · intro l1 t l2 heq h1 ht
    have hfound := find?_first _ l1 t l2 h1 ht
    rw [Triangulation.randomFlips, heq, hfound]

/-- The flip-oracle instantiation for the C8 witness: two candidate
re-triangulations of the square, a reversing shuffle. -/
def oracleFlips : Oracles :=
  { oracleTrivial with
    topcomFlips := fun _ => [[[0,1,3],[0,2,3]], [[0,1,2],[1,2,3]]]
    shuffle := fun _ l => l.reverse }

/-- The square re-triangulated along the other diagonal (the first TOPCOM
candidate above); it is star with respect to the origin at index 0. -/
def squareTFlipped : Triangulation :=
  { squareT with simplices := [[0,1,3],[0,2,3]] }

/-- Witness for C8: with `only_star=True`, one step from the two-triangle
square walks to the star candidate: the shuffled list puts the non-star
candidate first, it is rejected, and the first passing neighbor is accepted;
a second application of the theorem finishes the walk. -/
theorem randomFlips_spec_witness :
    Triangulation.randomFlips oracleFlips false false true 1 0 squareT
      = .ok squareTFlipped :=
  ((randomFlips_spec oracleFlips false false true 0 0 squareT).2.2
      [{ squareT with simplices := [[0,1,2],[1,2,3]] }] squareTFlipped []
      (by decide) (by decide) (by decide)).trans
    (randomFlips_spec oracleFlips false false true 0 1 squareTFlipped).1

/-!
## The constructor (`Triangulation.__init__`)

The constructor's own derived quantities, named so that the theorems about it
can refer to them: the parsed point list (polytope-ordered, deduplicated),
the ambient dimension (length of a representative point) and the affine rank
minus one (`np.linalg.matrix_rank` of the homogenized points, computed here
by exact fraction-free elimination).
-/

/-- Rank of an integer matrix by fraction-free Gaussian elimination; the fuel
is the column count. -/
def rankFuel : Nat → List (List Int) → Nat
  | 0, _ => 0
  | fuel + 1, rows =>
    match rows.findIdx? (fun r => r.headD 0 != 0) with
    | none => rankFuel fuel (rows.map (fun r => r.tail))
    | some idx =>
      let p := rows.getD idx []
      let ph := p.headD 0
      let others := dropIdx idx rows
      1 + rankFuel fuel (others.map (fun r =>
          r.tail.zipWith (fun a b => ph * a - r.headD 0 * b) p.tail))

/-- Rank of an integer matrix (exact value of `np.linalg.matrix_rank` on the
small exact matrices the constructor builds). -/
def rankZ (rows : List (List Int)) : Nat := rankFuel (rows.headD []).length rows

/-- Python: `self._pts`: the deduplicated input points, reordered to the polytope's
canonical point order. -/
def mkPts (polyPts ptsInput : List (List Int)) : List (List Int) :=
  polyPts.filter (fun pt => ptsInput.dedup.contains pt)

/-- Python: `self._ambient_dim = len(next(iter(tmp_pts)))`. -/
def mkAmbient (ptsInput : List (List Int)) : Nat :=
  (ptsInput.dedup.headD []).length

/-- Python: `self._dim = np.linalg.matrix_rank([pt+(1,) for pt in tmp_pts]) - 1`. -/
def mkDim (ptsInput : List (List Int)) : Nat :=
  rankZ (ptsInput.dedup.map (fun pt => pt ++ [1])) - 1

/-- ASCII lowercase of one character (`str.lower` on the backend names). -/
def lowerChar (c : Char) : Char :=
  if 65 ≤ c.toNat ∧ c.toNat ≤ 90 then Char.ofNat (c.toNat + 32) else c

/-- Python: `str.lower()` (ASCII case folding suffices for backend names). -/
def pyLower (s : String) : String := ⟨s.data.map lowerChar⟩

/--
The part of `__init__` after the origin lookup, parameterized by the computed
`_origin_index` and the (possibly disabled) `make_star` flag.

With user simplices: the `np.asarray` conversion and `shape[1]` access reject
ragged input (`ValueError`), an empty list (`IndexError`) and a row length
other than `dim + 1` (`ValueError`); these shape tests and the index-range
test (`check_input_simplices` only; indices are naturals here, Python also
rejects negative ones) are invariant under the sorting that precedes the
conversion and are therefore tested on the raw input.  Then star-ification if
requested, and the `is_valid` test (`check_input_simplices` only).

Without simplices: heights are length-checked only when user-supplied
(`len(heights) != len(pts)` compares against the label count), defaulted per
back-end otherwise, and the chosen back-end oracle produces the simplices,
with the CGAL star loop guarded by `assert self._origin_index == 0`.  The
trailing `check_heights` call only affects the stored heights (not modelled:
it performs a floating-point wall-distance test and possibly resets them).
-/
def mkRest (O : Oracles) (polyId polyDim : Nat) (pts ptsOptimal : List (List Int))
    (ambientDim dim ptsInputLen : Nat) (b : String) (heights : Option (List ℚ))
    (simplices? : Option (List (List Nat))) (checkInputSimplices : Bool)
    (originIndex : Int) (makeStar' : Bool) : Except PyErr Triangulation :=
  let base : Triangulation :=
    ⟨polyId, polyDim, pts, ptsOptimal, ambientDim, dim, originIndex, []⟩
  match simplices? with
  | some ss =>
    if !(ss.all (fun s => s.length == (ss.headD []).length)) then
      .error (.valueError "inhomogeneous simplices")
    else if ss.isEmpty then .error .indexError
    else if (ss.headD []).length != dim + 1 then
      .error (.valueError "Dimension of simplices does not match")
    else if checkInputSimplices &&
        ss.any (fun s => s.any (fun i => decide (pts.length ≤ i))) then
      .error (.valueError "A simplex had index out of range")
    else
      let ss' := canonSimps ss
      let afterStar := if makeStar' then O.toStar { base with simplices := ss' } else ss'
      let T : Triangulation := { base with simplices := canonSimps afterStar }
      if checkInputSimplices then
        match Triangulation.isValidE O T with
        | .error e => .error e
        | .ok false => .error (.valueError "Simplices do not form valid triangulation.")
        | .ok true => .ok T
      else .ok T
  | none =>
    let run : Option (List ℚ) → Except PyErr Triangulation := fun hts =>
      if b == "qhull" then
        let simp0 := O.qhullTri ptsOptimal (hts.getD [])
        let simp1 := if makeStar' then O.toStar { base with simplices := simp0 } else simp0
        .ok { base with simplices := canonSimps simp1 }
      else if b == "cgal" then
        if makeStar' then
          if originIndex != 0 then .error .assertionError
          else .ok { base with
            simplices := canonSimps (O.cgalStarLoop ptsOptimal (hts.getD [])) }
        else .ok { base with simplices := canonSimps (O.cgalTri ptsOptimal (hts.getD [])) }
      else
        let simp0 := O.topcomTri ptsOptimal
        let simp1 := if makeStar' then O.toStar { base with simplices := simp0 } else simp0
        .ok { base with simplices := canonSimps simp1 }
    match heights with
    | some h =>
      if h.length != ptsInputLen then
        .error (.valueError "Need same number of heights as points.")
      else run (some h)
    | none =>
      run (if b == "qhull" then some (O.qhullHeights pts)
        else if b == "cgal" then
          some (pts.map (fun p => (((p.map (fun x => x * x)).sum : Int) : ℚ)))
        else none)

/--
`Triangulation.__init__`.  `polyPts` is the ambient polytope's canonically
ordered point list; `ptsInput` is `poly.points(which=pts)`, one row per label.
`backend = backend.lower()` raises `AttributeError` when `backend is None`
(before the membership test that nominally allows `None`); an invalid backend
name and an empty point set raise `ValueError`; then the points are parsed,
the origin is looked up with the key `(0,) * poly.dim()` (absence records
`_origin_index = -1` and silently disables `make_star`), and `mkRest`
finishes the construction.
-/
def mkTriangulation (O : Oracles) (polyId polyDim : Nat)
    (polyPts ptsInput : List (List Int)) (heights : Option (List ℚ))
    (makeStar : Bool) (simplices? : Option (List (List Nat)))
    (checkInputSimplices : Bool) (backend : Option String) :
    Except PyErr Triangulation :=
  match backend with
  | none => .error .attributeError
  | some bstr =>
    let b := pyLower bstr
    if !(["qhull", "cgal", "topcom"].contains b) then
      .error (.valueError "Invalid backend")
    else if ptsInput.dedup.isEmpty then
      .error (.valueError "Need at least 1 point.")
    else
      let pts := mkPts polyPts ptsInput
      let ambientDim := mkAmbient ptsInput
      let dim := mkDim ptsInput
      let ptsOptimal := if dim == ambientDim then pts
        else (O.lll (pts.map (fun p =>
            p.zipWith (fun a c => a - c) (pts.headD [])))).map
          (fun r => r.drop (r.length - dim))
      match idxOf? (List.replicate polyDim 0) pts with
      | some i =>
        mkRest O polyId polyDim pts ptsOptimal ambientDim dim ptsInput.length b
          heights simplices? checkInputSimplices (i : Int) makeStar
      | none =>
        mkRest O polyId polyDim pts ptsOptimal ambientDim dim ptsInput.length b
          heights simplices? checkInputSimplices (-1) false
/-- With user simplices one of which has the wrong number of vertices, the
post-parsing constructor stage raises a `ValueError` (either the ragged-array
conversion or the dimension comparison). -/
theorem mkRest_wrong_size (O : Oracles) (polyId polyDim : Nat)
    (pts ptsOptimal : List (List Int)) (ambientDim dim ptsInputLen : Nat)
    (b : String) (heights : Option (List ℚ)) (ss : List (List Nat))
    (check : Bool) (originIndex : Int) (makeStar' : Bool)
    (s : List Nat) (hs : s ∈ ss) (hlen : s.length ≠ dim + 1) :
    ∃ msg, mkRest O polyId polyDim pts ptsOptimal ambientDim dim ptsInputLen b
        heights (some ss) check originIndex makeStar' = .error (.valueError msg) := by
  rw [mkRest]
  by_cases hrag : ss.all (fun s => s.length == (ss.headD []).length) = true
  case neg =>
    rw [Bool.eq_false_iff.mpr hrag]
    exact ⟨_, rfl⟩
  case pos =>
    have hL : s.length = (ss.headD []).length :=
      eq_of_beq (List.all_eq_true.mp hrag s hs)
    have hne : ss.isEmpty = false := by
      cases ss with
      | nil => cases hs
      | cons a l => rfl
    have hdim : ((ss.headD []).length != dim + 1) = true := by
      rw [bne_iff_ne]
      omega
    rw [hrag, hne, hdim]
    exact ⟨_, rfl⟩

/-- With `check_input_simplices=True` and a simplex index out of range, the
post-parsing constructor stage raises a `ValueError`. -/
theorem mkRest_out_of_range (O : Oracles) (polyId polyDim : Nat)
    (pts ptsOptimal : List (List Int)) (ambientDim dim ptsInputLen : Nat)
    (b : String) (heights : Option (List ℚ)) (ss : List (List Nat))
    (originIndex : Int) (makeStar' : Bool)
    (hbad : ∃ s ∈ ss, ∃ i ∈ s, pts.length ≤ i) :
    ∃ msg, mkRest O polyId polyDim pts ptsOptimal ambientDim dim ptsInputLen b
        heights (some ss) true originIndex makeStar' = .error (.valueError msg) := by
  obtain ⟨s, hs, i, hi, hile⟩ := hbad
  by_cases hsz : s.length = dim + 1
  case neg =>
    exact mkRest_wrong_size O polyId polyDim pts ptsOptimal ambientDim dim
      ptsInputLen b heights ss true originIndex makeStar' s hs hsz
  rw [mkRest]
  by_cases hrag : ss.all (fun s => s.length == (ss.headD []).length) = true
  case neg =>
    rw [Bool.eq_false_iff.mpr hrag]
    exact ⟨_, rfl⟩
  have hL : s.length = (ss.headD []).length :=
    eq_of_beq (List.all_eq_true.mp hrag s hs)
  have hne : ss.isEmpty = false := by
    cases ss with
    | nil => cases hs
    | cons a l => rfl
  have hdim : ((ss.headD []).length != dim + 1) = false := by
    rw [bne_eq_false_iff_eq]
    omega
  have hany : (ss.any (fun s => s.any (fun i => decide (pts.length ≤ i)))) = true := by
    rw [List.any_eq_true]
    exact ⟨s, hs, List.any_eq_true.mpr ⟨i, hi, by simpa using hile⟩⟩
  rw [hrag, hne, hdim, hany]
  exact ⟨_, rfl⟩

/-- With no user simplices and a user height vector of the wrong length, the
post-parsing constructor stage raises the height-count `ValueError`. -/
theorem mkRest_heights_mismatch (O : Oracles) (polyId polyDim : Nat)
    (pts ptsOptimal : List (List Int)) (ambientDim dim ptsInputLen : Nat)
    (b : String) (h : List ℚ) (check : Bool) (originIndex : Int)
    (makeStar' : Bool) (hlen : h.length ≠ ptsInputLen) :
    mkRest O polyId polyDim pts ptsOptimal ambientDim dim ptsInputLen b
        (some h) none check originIndex makeStar'
      = .error (.valueError "Need same number of heights as points.") := by
  rw [mkRest]
  have hb : (h.length != ptsInputLen) = true := by
    rw [bne_iff_ne]
    exact hlen
  rw [hb]
  rfl

/-- Any successful construction records the origin index that the lookup
produced. -/
theorem mkRest_ok_origin (O : Oracles) (polyId polyDim : Nat)
    (pts ptsOptimal : List (List Int)) (ambientDim dim ptsInputLen : Nat)
    (b : String) (heights : Option (List ℚ))
    (simplices? : Option (List (List Nat))) (check : Bool) (originIndex : Int)
    (makeStar' : Bool) (T : Triangulation)
    (h : mkRest O polyId polyDim pts ptsOptimal ambientDim dim ptsInputLen b
        heights simplices? check originIndex makeStar' = .ok T) :
    T.originIndex = originIndex := by
  rw [mkRest.eq_def] at h
  dsimp only at h
  repeat' split at h
  any_goals exact Except.noConfusion h
  all_goals (injection h with h'; rw [← h'])

/-- A nonempty label list parses to a nonempty deduplicated point set. -/
theorem dedup_not_empty (ptsInput : List (List Int)) (h : ptsInput ≠ []) :
    ptsInput.dedup.isEmpty = false := by
  cases hd : ptsInput.dedup with
  | nil => exact absurd ((List.dedup_eq_nil ptsInput).mp hd) h
  | cons a l => rfl

/--
C7 (amended): the constructor raises a `ValueError` immediately when the
backend name is invalid, when the parsed point set is empty, when a
user-supplied simplex does not have exactly `dim + 1` vertices, when
(`check_input_simplices=True`, the default) a user-supplied simplex index is
out of `[0, len(points) - 1]`, and when a user height vector's length differs
from the number of supplied point labels *and no simplices are supplied* —
with user simplices, heights are ignored without any length check, and with
`check_input_simplices=False` out-of-range indices are accepted (see the
counterexample).
-/
theorem mkTriangulation_errors_spec (O : Oracles) (polyId polyDim : Nat)
    (polyPts ptsInput : List (List Int)) (heights : Option (List ℚ))
    (makeStar : Bool) (check : Bool) (bstr : String) :
    ((["qhull", "cgal", "topcom"].contains (pyLower bstr)) = false →
      ∀ simplices?, mkTriangulation O polyId polyDim polyPts ptsInput heights
          makeStar simplices? check (some bstr)
        = .error (.valueError "Invalid backend")) ∧
    ((["qhull", "cgal", "topcom"].contains (pyLower bstr)) = true →
      ∀ simplices?, mkTriangulation O polyId polyDim polyPts [] heights
          makeStar simplices? check (some bstr)
        = .error (.valueError "Need at least 1 point.")) ∧
    ((["qhull", "cgal", "topcom"].contains (pyLower bstr)) = true → ptsInput ≠ [] →
      ∀ ss s, s ∈ ss → s.length ≠ mkDim ptsInput + 1 →
      ∃ msg, mkTriangulation O polyId polyDim polyPts ptsInput heights
          makeStar (some ss) check (some bstr) = .error (.valueError msg)) ∧
    ((["qhull", "cgal", "topcom"].contains (pyLower bstr)) = true → ptsInput ≠ [] →
      ∀ ss, (∃ s ∈ ss, ∃ i ∈ s, (mkPts polyPts ptsInput).length ≤ i) →
      ∃ msg, mkTriangulation O polyId polyDim polyPts ptsInput heights
          makeStar (some ss) true (some bstr) = .error (.valueError msg)) ∧
    ((["qhull", "cgal", "topcom"].contains (pyLower bstr)) = true → ptsInput ≠ [] →
      ∀ h : List ℚ, h.length ≠ ptsInput.length →
      mkTriangulation O polyId polyDim polyPts ptsInput (some h)
          makeStar none check (some bstr)
        = .error (.valueError "Need same number of heights as points.")) := by
  refine ⟨?_, ?_, ?_, ?_, ?_⟩
  · intro hbad simplices?
    simp only [mkTriangulation, hbad]
    rfl
  · intro hok simplices?
    simp only [mkTriangulation, hok]
    rfl
  · intro hok hne ss s hsmem hslen
    simp only [mkTriangulation, hok, dedup_not_empty ptsInput hne,
      Bool.not_true, Bool.false_eq_true, if_false]
    cases hlk : idxOf? (List.replicate polyDim 0) (mkPts polyPts ptsInput) with
    | some i =>
      simp only [hlk]
      exact mkRest_wrong_size O polyId polyDim _ _ _ _ _ _ heights ss check _ makeStar
        s hsmem hslen
    | none =>
      simp only [hlk]
      exact mkRest_wrong_size O polyId polyDim _ _ _ _ _ _ heights ss check _ false
        s hsmem hslen
  · intro hok hne ss hbad
    simp only [mkTriangulation, hok, dedup_not_empty ptsInput hne,
      Bool.not_true, Bool.false_eq_true, if_false]
    cases hlk : idxOf? (List.replicate polyDim 0) (mkPts polyPts ptsInput) with
    | some i =>
      simp only [hlk]
      exact mkRest_out_of_range O polyId polyDim _ _ _ _ _ _ heights ss _ makeStar hbad
    | none =>
      simp only [hlk]
      exact mkRest_out_of_range O polyId polyDim _ _ _ _ _ _ heights ss _ false hbad
  · intro hok hne h hlen
    simp only [mkTriangulation, hok, dedup_not_empty ptsInput hne,
      Bool.not_true, Bool.false_eq_true, if_false]
    cases hlk : idxOf? (List.replicate polyDim 0) (mkPts polyPts ptsInput) with
    | some i =>
      simp only [hlk]
      exact mkRest_heights_mismatch O polyId polyDim _ _ _ _ _ _ h check _ makeStar hlen
    | none =>
      simp only [hlk]
      exact mkRest_heights_mismatch O polyId polyDim _ _ _ _ _ _ h check _ false hlen

/-- The triangulation that the counterexample construction below returns:
the out-of-range index `5` survives inside the simplex list. -/
def badIdxT : Triangulation :=
  { polyId := 3, polyDim := 2
    pts := [[0,0],[1,0],[0,1]], ptsOptimal := [[0,0],[1,0],[0,1]]
    ambientDim := 2, dim := 2, originIndex := 0
    simplices := [[0,1,5]] }

/--
Counterexample to C7: with `check_input_simplices=False` the constructor
accepts a user simplex containing the index `5`, far outside
`[0, len(points) - 1] = [0, 2]`, and returns a triangulation instead of
raising a `ValueError` — the range check is conditional on
`check_input_simplices`, so this error *is* deferred to later operations.
-/
theorem mk_out_of_range_unchecked_counterexample :
    (∃ s ∈ [[0,1,5]], ∃ i ∈ s, (mkPts [[0,0],[1,0],[0,1]] [[0,0],[1,0],[0,1]]).length ≤ i) ∧
      (mkTriangulation oracleTrivial 3 2 [[0,0],[1,0],[0,1]] [[0,0],[1,0],[0,1]]
          none false (some [[0,1,5]]) false (some "cgal")).toOption = some badIdxT := by
  constructor
  · decide
  · decide

/-- Witness for the amended C7 statement: each error condition fired at a
concrete input (invalid backend name, empty point set, a 2-vertex simplex for
a 2-dimensional configuration, an out-of-range index under the default
checks, and a one-entry height vector for three points). -/
theorem mkTriangulation_errors_spec_witness :
    (mkTriangulation oracleTrivial 3 2 [[0,0],[1,0],[0,1]] [[0,0],[1,0],[0,1]]
        none false none true (some "scipy")
      = .error (.valueError "Invalid backend")) ∧
    (mkTriangulation oracleTrivial 3 2 [[0,0],[1,0],[0,1]] [] none false none
        true (some "cgal")
      = .error (.valueError "Need at least 1 point.")) ∧
    (∃ msg, mkTriangulation oracleTrivial 3 2 [[0,0],[1,0],[0,1]]
        [[0,0],[1,0],[0,1]] none false (some [[0,1]]) true (some "cgal")
      = .error (.valueError msg)) ∧
    (∃ msg, mkTriangulation oracleTrivial 3 2 [[0,0],[1,0],[0,1]]
        [[0,0],[1,0],[0,1]] none false (some [[0,1,5]]) true (some "cgal")
      = .error (.valueError msg)) ∧
    (mkTriangulation oracleTrivial 3 2 [[0,0],[1,0],[0,1]] [[0,0],[1,0],[0,1]]
        (some [1]) false none true (some "cgal")
      = .error (.valueError "Need same number of heights as points.")) :=
  ⟨(mkTriangulation_errors_spec oracleTrivial 3 2 [[0,0],[1,0],[0,1]]
      [[0,0],[1,0],[0,1]] none false true "scipy").1 (by decide) none,
   (mkTriangulation_errors_spec oracleTrivial 3 2 [[0,0],[1,0],[0,1]]
      [[0,0],[1,0],[0,1]] none false true "cgal").2.1 (by decide) none,
   (mkTriangulation_errors_spec oracleTrivial 3 2 [[0,0],[1,0],[0,1]]
      [[0,0],[1,0],[0,1]] none false true "cgal").2.2.1 (by decide) (by decide)
      [[0,1]] [0,1] (by decide) (by decide),
   (mkTriangulation_errors_spec oracleTrivial 3 2 [[0,0],[1,0],[0,1]]
      [[0,0],[1,0],[0,1]] none false true "cgal").2.2.2.1 (by decide) (by decide)
      [[0,1,5]] (by decide),
   (mkTriangulation_errors_spec oracleTrivial 3 2 [[0,0],[1,0],[0,1]]
      [[0,0],[1,0],[0,1]] none false true "cgal").2.2.2.2 (by decide) (by decide)
      [1] (by decide)⟩

/-- Decidable equality of constructor results (for evaluating witnesses). -/
instance exceptDecEq {ε α : Type} [DecidableEq ε] [DecidableEq α] :
    DecidableEq (Except ε α)
  | .ok a, .ok b =>
    if h : a = b then isTrue (by rw [h]) else isFalse (fun he => h (Except.ok.inj he))
  | .error e, .error f =>
    if h : e = f then isTrue (by rw [h]) else isFalse (fun he => h (Except.error.inj he))
  | .ok _, .error _ => isFalse Except.noConfusion
  | .error _, .ok _ => isFalse Except.noConfusion

/--
C10: when the zero vector is not among the configuration's points, the lookup
of `(0,) * poly.dim()` fails (whether or not `poly.dim()` equals the ambient
dimension), so construction with `make_star=True` proceeds exactly as with
`make_star=False` — no error, no warning, `_origin_index` recorded as `-1`,
and no star-ification step is performed.
-/
theorem mkTriangulation_makeStar_silent (O : Oracles) (polyId polyDim : Nat)
    (polyPts ptsInput : List (List Int)) (heights : Option (List ℚ))
    (simplices? : Option (List (List Nat))) (check : Bool)
    (backend : Option String)
    (hwfL : ∀ p ∈ ptsInput, p.length = mkAmbient ptsInput)
    (hz : List.replicate (mkAmbient ptsInput) 0 ∉ mkPts polyPts ptsInput) :
    mkTriangulation O polyId polyDim polyPts ptsInput heights true simplices?
        check backend
      = mkTriangulation O polyId polyDim polyPts ptsInput heights false
        simplices? check backend ∧
    ∀ T, mkTriangulation O polyId polyDim polyPts ptsInput heights true
        simplices? check backend = .ok T → T.originIndex = -1 := by
  have hlook : idxOf? (List.replicate polyDim 0) (mkPts polyPts ptsInput) = none := by
    rw [idxOf?, List.findIdx?_eq_none_iff]
    intro p hp
    have hpin : p ∈ ptsInput := by
      rw [mkPts, List.mem_filter] at hp
      have := hp.2
      simp only [List.elem_eq_mem, decide_eq_true_eq] at this
      exact List.mem_dedup.mp this
    by_cases hpd : polyDim = mkAmbient ptsInput
    · rw [Bool.eq_false_iff]
      intro hbe
      exact hz (hpd ▸ (eq_of_beq hbe) ▸ hp)
    · rw [Bool.eq_false_iff]
      intro hbe
      have h1 : p.length = mkAmbient ptsInput := hwfL p hpin
      rw [eq_of_beq hbe, List.length_replicate] at h1
      exact hpd h1
  constructor
  · cases backend with
    | none => rfl
    | some bstr => simp only [mkTriangulation, hlook]
  · intro T hT
    cases backend with
    | none => exact Except.noConfusion hT
    | some bstr =>
      simp only [mkTriangulation, hlook] at hT
      split at hT
      · exact Except.noConfusion hT
      · split at hT
        · exact Except.noConfusion hT
        · exact mkRest_ok_origin _ _ _ _ _ _ _ _ _ _ _ _ _ _ _ hT

/-- The triangulation built by the C10 witness: segment from `(1,0)` to
`(2,0)`, no origin point, `_origin_index = -1`. -/
def noOriginT : Triangulation :=
  { polyId := 4, polyDim := 1
    pts := [[1,0],[2,0]], ptsOptimal := [[0],[0]]
    ambientDim := 2, dim := 1, originIndex := -1
    simplices := [[0,1]] }

/-- Witness for C10: the origin-free segment, constructed with
`make_star=True`, equals the `make_star=False` construction and records
origin index `-1`. -/
theorem mkTriangulation_makeStar_silent_witness :
    (mkTriangulation oracleTrivial 4 1 [[1,0],[2,0]] [[1,0],[2,0]] none true
        (some [[0,1]]) true (some "cgal")
      = mkTriangulation oracleTrivial 4 1 [[1,0],[2,0]] [[1,0],[2,0]] none false
        (some [[0,1]]) true (some "cgal")) ∧
    noOriginT.originIndex = -1 :=
  ⟨(mkTriangulation_makeStar_silent oracleTrivial 4 1 [[1,0],[2,0]] [[1,0],[2,0]]
      none (some [[0,1]]) true (some "cgal") (by decide) (by decide)).1,
   (mkTriangulation_makeStar_silent oracleTrivial 4 1 [[1,0],[2,0]] [[1,0],[2,0]]
      none (some [[0,1]]) true (some "cgal") (by decide) (by decide)).2
     noOriginT (by decide)⟩
